import Mathlib

/-!
Verification of the backward-chaining inference engine
(`src/task_7/backward_chain.py`) and the clause parser
(`src/task_8/prolog_parser.py`) of the AIEA-Onboarding-Tasks repository.

The Python code is shallowly embedded: every mutable object becomes
explicit state passing, Python dictionaries become association lists with
first-occurrence lookup, Python sets become duplicate-free lists whose
iteration order is the insertion order (a deterministic refinement of the
hash order; none of the proved properties depends on that order), and the
`while` loops that walk binding chains with a visited set become
recursions on an ample fuel bound (each loop provably performs at most
`|bindings| + 2` iterations because every continuing step adds a fresh
element to the visited set, so the chosen fuel never runs out and the
recursion stops at exactly the step where the Python loop breaks).
-/

namespace BC

/-- A fact: predicate applied to a tuple of string arguments.  Arguments
beginning with `?` are variables (mirrors the `Fact` dataclass). -/
structure Fact where
  predicate : String
  args : List String
deriving DecidableEq, Repr

/-- A rule `conclusion :- premise1, ..., premiseN` (mirrors `Rule`). -/
structure Rule where
  conclusion : Fact
  premises : List Fact
deriving DecidableEq, Repr

/-- A binding environment: the Python `Dict[str, str]` as an association
list with unique keys; lookup returns the first matching pair. -/
abbrev Bindings := List (String × String)

/-- Python `s.startswith(pre)`, computed structurally on the underlying
character lists (Lean's own `String.startsWith` is defined by
well-founded recursion and does not reduce inside the kernel). -/
def pyStartsWith (s pre : String) : Bool :=
  pre.data.isPrefixOf s.data

/-- Dictionary lookup `bindings[k]` / membership `k in bindings`. -/
def lookupB (b : Bindings) (k : String) : Option String :=
  match b with
  | [] => none
  | (k', v) :: rest => if k' = k then some v else lookupB rest k

/-- Dictionary store `bindings[k] = v`: replace the value at an existing
key, else append the new pair (Python dict insertion semantics). -/
def insertB (b : Bindings) (k v : String) : Bindings :=
  match b with
  | [] => [(k, v)]
  | (k', v') :: rest =>
      if k' = k then (k', v) :: rest else (k', v') :: insertB rest k v

/-- Loop body of `Fact._resolve_binding`: follow the chain of bindings
with a visited set.  Python:
`while value in bindings: next = bindings[value];
 if next == value or next in seen: break; seen.add(next); value = next`. -/
def resolveGo (b : Bindings) : Nat → String → List String → String
  | 0, value, _ => value
  | fuel + 1, value, seen =>
      match lookupB b value with
      | none => value
      | some next =>
          if next = value ∨ seen.contains next then value
          else resolveGo b fuel next (next :: seen)

/-- `Fact._resolve_binding(var, bindings)`.  The fuel `b.length + 2` is an
upper bound on the loop's iterations: each continuing step adds a fresh
value to `seen`, and every followed value is a key of `b`. -/
def resolveBinding (b : Bindings) (var : String) : String :=
  resolveGo b (b.length + 2) var [var]

/-- Loop body of the per-argument chain walk in `Fact.substitute`.
Python: `while value in bindings:
 if value in seen and value != arg: break; next = bindings[value];
 if next == value: break; seen.add(value); value = next`. -/
def substGo (b : Bindings) (arg : String) : Nat → String → List String → String
  | 0, value, _ => value
  | fuel + 1, value, seen =>
      match lookupB b value with
      | none => value
      | some next =>
          if seen.contains value ∧ value ≠ arg then value
          else if next = value then value
          else substGo b arg fuel next (value :: seen)

/-- One argument of `Fact.substitute`: follow the chain of bindings to the
final value (fuel is ample, see `substGo`). -/
def substArg (b : Bindings) (arg : String) : String :=
  substGo b arg (2 * b.length + 4) arg [arg]

/-- `Fact.substitute(bindings)`: apply variable bindings to a fact,
following chains of bindings. -/
def Fact.substitute (f : Fact) (b : Bindings) : Fact :=
  ⟨f.predicate, f.args.map (substArg b)⟩

/-- The argument-pair loop of `Fact.match`: resolve both sides under the
current (threaded) bindings, then bind variable sides or compare
constants.  Returns `none` exactly when Python returns `None`. -/
def matchPairs : List (String × String) → Bindings → Option Bindings
  | [], b => some b
  | (sa, oa) :: rest, b =>
      let rs := if pyStartsWith sa "?" then resolveBinding b sa else sa
      let ro := if pyStartsWith oa "?" then resolveBinding b oa else oa
      if pyStartsWith rs "?" ∧ pyStartsWith ro "?" then
        if rs ≠ ro then matchPairs rest (insertB b rs ro)
        else matchPairs rest b
      else if pyStartsWith rs "?" then matchPairs rest (insertB b rs ro)
      else if pyStartsWith ro "?" then matchPairs rest (insertB b ro rs)
      else if rs ≠ ro then none
      else matchPairs rest b

/-- `Fact.match(other, bindings)`: unify this fact with `other`, extending
a copy of the given bindings. -/
def Fact.matchFact (self other : Fact) (b : Bindings) : Option Bindings :=
  if self.predicate ≠ other.predicate then none
  else if self.args.length ≠ other.args.length then none
  else matchPairs (self.args.zip other.args) b

/-- Ground fact: no argument is a variable (spec glossary: "Ground:
containing no variables"). -/
def Fact.isGround (f : Fact) : Bool :=
  f.args.all (fun a => !(pyStartsWith a "?"))

/-- The knowledge base: a fact set (list with set-insertion, iteration in
insertion order) and an ordered rule list (mirrors `KnowledgeBase`). -/
structure KnowledgeBase where
  facts : List Fact
  rules : List Rule
deriving DecidableEq, Repr

/-- `KnowledgeBase()` constructor. -/
def emptyKB : KnowledgeBase := ⟨[], []⟩

/-- `KnowledgeBase.add_fact`: set insertion (duplicates coalesced). -/
def addFact (kb : KnowledgeBase) (f : Fact) : KnowledgeBase :=
  if f ∈ kb.facts then kb else ⟨kb.facts ++ [f], kb.rules⟩

/-- `KnowledgeBase.add_rule`: append to the rule list. -/
def addRule (kb : KnowledgeBase) (r : Rule) : KnowledgeBase :=
  ⟨kb.facts, kb.rules ++ [r]⟩

/-- Mutable state of a `BackwardChainer` instance: the proved set, the
rule counter, and the goal stack.  The trace depth is not stored: it is
always restored to its entry value (every increment is matched by a
decrement on every return path), so it is passed as the explicit depth
budget of `backchainF` instead.  `peakStack` is a ghost field, absent
from the source: it records the largest goal-stack length attained so
far and is updated only at the push site; it exists solely to state the
depth-bound property. -/
structure ChainerState where
  provedGoals : List Fact
  ruleCounter : Nat
  currentGoals : List Fact
  peakStack : Nat
deriving DecidableEq, Repr

/-- The state of a freshly constructed `BackwardChainer`. -/
def initState : ChainerState := ⟨[], 0, [], 0⟩

/-- The default `max_depth` of `BackwardChainer.__init__`. -/
def initMaxDepth : Nat := 50

/-- `self.proved_goals.add(f)`: set insertion. -/
def addProved (st : ChainerState) (f : Fact) : ChainerState :=
  if f ∈ st.provedGoals then st
  else ⟨st.provedGoals ++ [f], st.ruleCounter, st.currentGoals, st.peakStack⟩

/-- `BackwardChainer._rename_rule_variables`: bump the rule counter and
append `_<counter>` to every variable of the rule.  (The Python code
first collects the set of `?`-arguments of the rule and then maps
`renaming.get(arg, arg)` over the rule's own arguments, which renames an
argument exactly when it starts with `?`; the pointwise form below is
that same map.)  Returns the renamed rule and the new counter. -/
def renameRule (counter : Nat) (r : Rule) : Rule × Nat :=
  let c := counter + 1
  let suffix := "_" ++ toString c
  let ren := fun (a : String) => if pyStartsWith a "?" then a ++ suffix else a
  (⟨⟨r.conclusion.predicate, r.conclusion.args.map ren⟩,
    r.premises.map (fun p => ⟨p.predicate, p.args.map ren⟩)⟩, c)

/-- Step 1 of `backchain_to_goal`: the loop over `kb.facts`.  Each fact is
matched against the hypothesis under the same incoming bindings; on a
match the (substituted) hypothesis is added to the proved set and the
extended bindings are appended to the results. -/
def tryFacts (kb : KnowledgeBase) (hyp : Fact) (b : Bindings)
    (st : ChainerState) : List Bindings × ChainerState :=
  kb.facts.foldl
    (fun acc fact =>
      match Fact.matchFact hyp fact b with
      | some mb => (acc.1 ++ [mb], addProved acc.2 (hyp.substitute mb))
      | none => acc)
    ([], st)

/-- `BackwardChainer._prove_premises`, parameterised by the recursive
prover `bc` (which `backchainF` instantiates with itself at the smaller
depth budget): prove the premises left to right, threading each solution
of the first premise into the remaining ones and concatenating the
results in order. -/
def provePremisesGo
    (bc : Fact → Bindings → ChainerState → List Bindings × ChainerState) :
    List Fact → Bindings → ChainerState → List Bindings × ChainerState
  | [], b, st => ([b], st)
  | p :: rest, b, st =>
      let fr := bc p b st
      fr.1.foldl
        (fun acc rb =>
          let r := provePremisesGo bc rest rb acc.2
          (acc.1 ++ r.1, r.2))
        ([], fr.2)

/-- Step 2 of `backchain_to_goal`: the loop over `kb.rules`.  Every rule
is renamed (bumping the counter) before the conclusion is matched; on a
match the renamed premises are proved, and if they succeed the
(substituted) hypothesis is added to the proved set and the premise
results extend the accumulated results. -/
def tryRulesGo
    (bc : Fact → Bindings → ChainerState → List Bindings × ChainerState)
    (rules : List Rule) (hyp : Fact) (b : Bindings)
    (init : List Bindings × ChainerState) : List Bindings × ChainerState :=
  rules.foldl
    (fun acc rule =>
      let rc := renameRule acc.2.ruleCounter rule
      let st1 : ChainerState :=
        ⟨acc.2.provedGoals, rc.2, acc.2.currentGoals, acc.2.peakStack⟩
      match Fact.matchFact hyp rc.1.conclusion b with
      | none => (acc.1, st1)
      | some mb =>
          let pr := provePremisesGo bc rc.1.premises mb st1
          if pr.1.isEmpty then (acc.1, pr.2)
          else (acc.1 ++ pr.1, addProved pr.2 (hyp.substitute mb)))
    init

/-- `BackwardChainer.backchain_to_goal`.  The `fuel` argument is
`max_depth - trace_depth` for the trace depth at entry: the Python guard
`trace_depth > max_depth` (checked after the entry increment) holds
exactly when the fuel is zero, and every nested premise goal runs at one
less fuel.  On zero fuel the branch fails; otherwise: fail on a cycle
(the substituted goal already on the goal stack), succeed immediately
with the current bindings on a memo hit, and otherwise push the goal,
try the facts, try the rules, and pop the goal. -/
def backchainF (kb : KnowledgeBase) :
    Nat → Fact → Bindings → ChainerState → List Bindings × ChainerState
  | 0, _, _, st => ([], st)
  | fuel + 1, hyp, b, st =>
      let bound := hyp.substitute b
      if bound ∈ st.currentGoals then ([], st)
      else if bound ∈ st.provedGoals then ([b], st)
      else
        let st1 : ChainerState :=
          ⟨st.provedGoals, st.ruleCounter, bound :: st.currentGoals,
            max st.peakStack (st.currentGoals.length + 1)⟩
        let fr := tryFacts kb hyp b st1
        let rr := tryRulesGo (backchainF kb fuel) kb.rules hyp b fr
        (rr.1, ⟨rr.2.provedGoals, rr.2.ruleCounter, rr.2.currentGoals.tail,
          rr.2.peakStack⟩)

/-- `BackwardChainer.prove_with_bindings`: clear the proved set, then
backchain from the goal with empty bindings.  The trace depth at every
top-level entry is `0` (it is always restored), so the depth budget is
the full `max_depth`. -/
def proveWithBindings (kb : KnowledgeBase) (maxDepth : Nat) (g : Fact)
    (st : ChainerState) : List Bindings × ChainerState :=
  backchainF kb maxDepth g []
    ⟨[], st.ruleCounter, st.currentGoals, st.peakStack⟩

/-- `BackwardChainer.prove`: clear the proved set, backchain, and report
whether any solution was found. -/
def prove (kb : KnowledgeBase) (maxDepth : Nat) (g : Fact)
    (st : ChainerState) : Bool × ChainerState :=
  let r := backchainF kb maxDepth g []
    ⟨[], st.ruleCounter, st.currentGoals, st.peakStack⟩
  (!r.1.isEmpty, r.2)

/-- Lexicographic order on character lists (the order Python uses to
compare strings). -/
def charListLt : List Char → List Char → Bool
  | [], [] => false
  | [], _ :: _ => true
  | _ :: _, [] => false
  | a :: as, b :: bs => if a < b then true else if b < a then false else charListLt as bs

/-- Python `s < t` on strings. -/
def strLt (s t : String) : Bool := charListLt s.data t.data

/-- Python tuple order on `(key, value)` pairs, as used by
`sorted(binding.items())`. -/
def pairLe (p q : String × String) : Bool :=
  strLt p.1 q.1 || (p.1 = q.1 && (strLt p.2 q.2 || p.2 = q.2))

/-- Insert into a sorted list of pairs. -/
def insertSorted (x : String × String) :
    List (String × String) → List (String × String)
  | [] => [x]
  | y :: ys => if pairLe x y then x :: y :: ys else y :: insertSorted x ys

/-- Python `sorted(binding.items())`: the canonical form used to detect
duplicate solutions (total order, so the result is order-insensitive in
the dictionary's items). -/
def sortPairs (l : List (String × String)) : List (String × String) :=
  l.foldr insertSorted []

/-- First-occurrence deduplication with an explicit seen accumulator. -/
def dedupFirstGo (seen : List String) : List String → List String
  | [] => []
  | x :: xs =>
      if x ∈ seen then dedupFirstGo seen xs
      else x :: dedupFirstGo (x :: seen) xs

/-- The set of query variables of `extract_query_bindings`
(`set(arg for arg in fact.args if arg.startswith('?'))`), iterated in
first-occurrence order — a deterministic refinement of Python's set
order; no proved property depends on this order. -/
def queryVars (f : Fact) : List String :=
  dedupFirstGo [] (f.args.filter (fun a => pyStartsWith a "?"))

/-- The chain walk of `extract_query_bindings`.  Python:
`while value in bindings and value.startswith('?'):
 if value in seen: break; seen.add(value); value = bindings[value]`. -/
def chaseGo (b : Bindings) : Nat → String → List String → String
  | 0, value, _ => value
  | fuel + 1, value, seen =>
      match lookupB b value with
      | none => value
      | some nv =>
          if !(pyStartsWith value "?") then value
          else if seen.contains value then value
          else chaseGo b fuel nv (value :: seen)

/-- Resolve one query variable to a concrete value, or `none` when the
variable is unbound or its chain ends in a variable. -/
def extractVar (b : Bindings) (var : String) : Option String :=
  match lookupB b var with
  | none => none
  | some v0 =>
      let v := chaseGo b (b.length + 2) v0 [var]
      if pyStartsWith v "?" then none else some v

/-- The duplicate-suppression loop of `extract_query_bindings`, keyed by
the sorted item list of each solution. -/
def dedupSolGo (seen : List (List (String × String))) :
    List (List (String × String)) → List (List (String × String))
  | [] => []
  | s :: rest =>
      let key := sortPairs s
      if key ∈ seen then dedupSolGo seen rest
      else s :: dedupSolGo (key :: seen) rest

/-- `extract_query_bindings(fact, bindings_list)`: restrict every binding
environment to the query variables, resolving chains and keeping only
concrete values; drop solutions whose restriction is empty; suppress
duplicates. -/
def extractQueryBindings (f : Fact) (bs : List Bindings) :
    List (List (String × String)) :=
  let qvs := queryVars f
  let result := bs.filterMap (fun b =>
    let clean := qvs.filterMap (fun v =>
      match extractVar b v with
      | some c => some (v, c)
      | none => none)
    if clean.isEmpty then none else some clean)
  dedupSolGo [] result

/-- `solve` as the spec defines it: `prove_with_bindings` followed by
`extract_query_bindings` (the composition used by the demos). -/
def solve (kb : KnowledgeBase) (maxDepth : Nat) (g : Fact)
    (st : ChainerState) : List (List (String × String)) × ChainerState :=
  let r := proveWithBindings kb maxDepth g st
  (extractQueryBindings g r.1, r.2)

/-- The characters removed by Python's `str.strip()`. -/
def pyIsSpace (c : Char) : Bool :=
  c = ' ' ∨ c = '\t' ∨ c = '\n' ∨ c = '\r' ∨ c = Char.ofNat 11 ∨ c = Char.ofNat 12

/-- Python `s.strip()`: drop leading and trailing whitespace. -/
def pyStrip (s : String) : String :=
  ⟨((s.data.dropWhile pyIsSpace).reverse.dropWhile pyIsSpace).reverse⟩

/-- Python `s.rstrip('.')`: drop trailing dots. -/
def rstripDot (s : String) : String :=
  ⟨(s.data.reverse.dropWhile (fun c => c = '.')).reverse⟩

/-- A regex `\w` word character (ASCII reading: letters, digits, `_`). -/
def isWordChar (c : Char) : Bool := c.isAlphanum || c = '_'

/-- The regex `re.match(r'(\w+)\((.*?)\)', s)` of `parse_prolog_fact`:
a maximal nonempty run of word characters anchored at the start, then a
literal `(`, then the (lazy) shortest run up to the first `)`.  Returns
the two capture groups.  The lazy `.*?` cannot cross a newline, and the
greedy `\w+` cannot end anywhere but at its maximal run (backtracking to
a shorter run would put a word character where `(` is required). -/
def matchAtom (s : String) : Option (String × String) :=
  let cs := s.data
  let pred := cs.takeWhile isWordChar
  if pred.isEmpty then none
  else
    match cs.drop pred.length with
    | [] => none
    | c :: rest =>
        if c = '(' then
          let inner := rest.takeWhile (fun ch => ch ≠ ')')
          if inner.length = rest.length then none
          else if inner.contains '\n' then none
          else some (⟨pred⟩, ⟨inner⟩)
        else none

/-- Python `args_str.split(',')`: split at every comma. -/
def splitCommaGo (cur : List Char) : List Char → List String
  | [] => [⟨cur.reverse⟩]
  | c :: rest =>
      if c = ',' then ⟨cur.reverse⟩ :: splitCommaGo [] rest
      else splitCommaGo (c :: cur) rest

/-- Python `args_str.split(',')`. -/
def splitCommaAll (s : String) : List String := splitCommaGo [] s.data

/-- The per-argument conversion of `parse_prolog_fact`: `_` becomes the
anonymous-variable name `?_`, an upper-initial identifier becomes a
`?`-prefixed variable, anything else stays a constant. -/
def convertArg (arg : String) : String :=
  if arg = "_" then "?_"
  else
    match arg.data with
    | [] => arg
    | c :: _ => if c.isUpper then "?" ++ arg else arg

/-- The raw (comma-split, stripped) argument strings that
`parse_prolog_fact` extracts before variable conversion. -/
def factRawArgs (s : String) : Option (List String) :=
  match matchAtom (rstripDot (pyStrip s)) with
  | none => none
  | some pa =>
      if pa.2.data.isEmpty then some []
      else some ((splitCommaAll pa.2).map pyStrip)

/-- `parse_prolog_fact(fact_str)`. -/
def parsePrologFact (s : String) : Option Fact :=
  let t := rstripDot (pyStrip s)
  match matchAtom t with
  | none => none
  | some pa =>
      if pa.2.data.isEmpty then some ⟨pa.1, []⟩
      else some ⟨pa.1, ((splitCommaAll pa.2).map pyStrip).map convertArg⟩

/-- The character loop of `split_premises`: split on commas only at
parenthesis depth zero; intermediate pieces are appended (stripped) even
when empty, the final piece only when nonempty. -/
def splitPremisesGo : List Char → List Char → Int → List String
  | [], cur, _ =>
      let last := pyStrip ⟨cur.reverse⟩
      if last.data.isEmpty then [] else [last]
  | c :: rest, cur, d =>
      if c = '(' then splitPremisesGo rest (c :: cur) (d + 1)
      else if c = ')' then splitPremisesGo rest (c :: cur) (d - 1)
      else if c = ',' ∧ d = 0 then pyStrip ⟨cur.reverse⟩ :: splitPremisesGo rest [] d
      else splitPremisesGo rest (c :: cur) d

/-- `split_premises(premises_str)`. -/
def splitPremises (s : String) : List String := splitPremisesGo s.data [] 0

/-- Substring test on character lists (Python `pat in s`). -/
def listContainsSub (pat : List Char) : List Char → Bool
  | [] => pat.isEmpty
  | c :: rest => pat.isPrefixOf (c :: rest) || listContainsSub pat rest

/-- Python `pat in s` on strings. -/
def containsSub (s pat : String) : Bool := listContainsSub pat.data s.data

/-- The premise loop of `parse_prolog_rule`: a premise containing `\=` or
beginning with `_` is skipped; otherwise it is parsed as a fact and kept
when the parse succeeds. -/
def processPremises : List String → List Fact
  | [] => []
  | p :: rest =>
      if containsSub p "\\=" || pyStartsWith p "_" then processPremises rest
      else
        match parsePrologFact p with
        | some f => f :: processPremises rest
        | none => processPremises rest

/-- Python `rule_str.split(':-')`: split at every (leftmost,
non-overlapping) occurrence of `:-`. -/
def splitColonDashGo (cur : List Char) : List Char → List String
  | [] => [⟨cur.reverse⟩]
  | ':' :: '-' :: rest => ⟨cur.reverse⟩ :: splitColonDashGo [] rest
  | c :: rest => splitColonDashGo (c :: cur) rest

/-- Python `rule_str.split(':-')`. -/
def splitColonDash (s : String) : List String := splitColonDashGo [] s.data

/-- `parse_prolog_rule(rule_str)`: requires exactly one `:-` (the split
must yield exactly two parts), parses the conclusion, and processes the
depth-zero comma-split premises. -/
def parsePrologRule (s : String) : Option Rule :=
  let t := rstripDot (pyStrip s)
  match splitColonDash t with
  | [cstr, pstr] =>
      match parsePrologFact (pyStrip cstr) with
      | none => none
      | some concl => some ⟨concl, processPremises (splitPremises (pyStrip pstr))⟩
  | _ => none

/-- `parse_prolog_line(line)`: skip blanks and `%` comments; a line
containing `:-` is parsed as a rule, anything else as a fact; a failed
parse yields `none`. -/
def parsePrologLine (line : String) : Option (Fact ⊕ Rule) :=
  let l := pyStrip line
  if l.data.isEmpty then none
  else if pyStartsWith l "%" then none
  else if containsSub l ":-" then (parsePrologRule l).map Sum.inr
  else (parsePrologFact l).map Sum.inl

/-- A two-clause knowledge base used as a concrete failing input:
fact `q(a)` and rule `p(?X) :- q(?X)`. -/
def kbPQ : KnowledgeBase := ⟨[⟨"q", ["a"]⟩], [⟨⟨"p", ["?X"]⟩, [⟨"q", ["?X"]⟩]⟩]⟩

/-- A two-clause knowledge base used as a concrete failing input:
fact `q(a, b)` and rule `p(?X) :- q(?X, ?Y)`. -/
def kbPQ2 : KnowledgeBase :=
  ⟨[⟨"q", ["a", "b"]⟩], [⟨⟨"p", ["?X"]⟩, [⟨"q", ["?X", "?Y"]⟩]⟩]⟩

/-! ### Helper lemmas -/

/-- Substituting with no bindings is the identity on an argument. -/
lemma substArg_nil (a : String) : substArg [] a = a := rfl

/-- Substituting with no bindings is the identity on a fact. -/
lemma substitute_nil (f : Fact) : f.substitute [] = f := by
  have h : substArg ([] : Bindings) = id := funext substArg_nil
  cases f with
  | mk p args => simp [Fact.substitute, h]

/-- Matching a ground argument list against itself with empty bindings
succeeds with empty bindings. -/
lemma matchPairs_self_ground (l : List String)
    (h : l.all (fun a => !(pyStartsWith a "?")) = true) :
    matchPairs (l.zip l) [] = some [] := by
  induction l with
  | nil => simp [matchPairs]
  | cons a rest ih =>
      simp only [List.all_cons, Bool.and_eq_true, Bool.not_eq_true'] at h
      have hz : (a :: rest).zip (a :: rest) = (a, a) :: rest.zip rest := rfl
      rw [hz]
      simpa [matchPairs, h.1] using ih h.2

/-- Matching a ground fact against itself with empty bindings succeeds
with empty bindings. -/
lemma matchFact_self_ground (f : Fact) (h : f.isGround = true) :
    Fact.matchFact f f [] = some [] := by
  unfold Fact.matchFact
  simp [matchPairs_self_ground f.args h]

/-- The state relation preserved by every operation of a `backchainF`
call running at the given depth budget: the goal stack is restored, the
rule counter never decreases, and the peak stack length is bounded by
the entry peak and the entry stack length plus the budget. -/
def StInv (fuel : Nat) (st st' : ChainerState) : Prop :=
  st'.currentGoals = st.currentGoals ∧
  st.ruleCounter ≤ st'.ruleCounter ∧
  st'.peakStack ≤ max st.peakStack (st.currentGoals.length + fuel)

lemma StInv_refl (fuel : Nat) (st : ChainerState) : StInv fuel st st :=
  ⟨rfl, le_refl _, le_max_left _ _⟩

lemma StInv_trans (fuel : Nat) {a b c : ChainerState}
    (h1 : StInv fuel a b) (h2 : StInv fuel b c) : StInv fuel a c := by
  obtain ⟨g1, c1, p1⟩ := h1
  obtain ⟨g2, c2, p2⟩ := h2
  refine ⟨g2.trans g1, c1.trans c2, ?_⟩
  rw [g1] at p2
  omega

/-- A state relation that holds step-by-step along a fold holds from the
initial to the final accumulator state. -/
lemma foldl_state_inv {α : Type} (R : ChainerState → ChainerState → Prop)
    (hrefl : ∀ s, R s s)
    (htrans : ∀ {a b c}, R a b → R b c → R a c)
    (f : List Bindings × ChainerState → α → List Bindings × ChainerState)
    (hstep : ∀ acc x, R acc.2 (f acc x).2) :
    ∀ (l : List α) (acc), R acc.2 (l.foldl f acc).2 := by
  intro l
  induction l with
  | nil => intro acc; exact hrefl _
  | cons x xs ih => intro acc; exact htrans (hstep acc x) (ih (f acc x))

/-- `addProved` changes only the proved set. -/
lemma addProved_fields (st : ChainerState) (f : Fact) :
    (addProved st f).currentGoals = st.currentGoals ∧
    (addProved st f).ruleCounter = st.ruleCounter ∧
    (addProved st f).peakStack = st.peakStack := by
  unfold addProved
  split <;> simp

/-- The fact loop changes only the proved set. -/
lemma tryFacts_fields (kb : KnowledgeBase) (hyp : Fact) (b : Bindings)
    (st : ChainerState) :
    (tryFacts kb hyp b st).2.currentGoals = st.currentGoals ∧
    (tryFacts kb hyp b st).2.ruleCounter = st.ruleCounter ∧
    (tryFacts kb hyp b st).2.peakStack = st.peakStack := by
  refine foldl_state_inv
    (fun s s' => s'.currentGoals = s.currentGoals ∧
      s'.ruleCounter = s.ruleCounter ∧ s'.peakStack = s.peakStack)
    (fun s => ⟨rfl, rfl, rfl⟩)
    (fun h1 h2 => ⟨h2.1.trans h1.1, h2.2.1.trans h1.2.1, h2.2.2.trans h1.2.2⟩)
    _ ?_ kb.facts ([], st)
  intro acc fact
  rcases hm : Fact.matchFact hyp fact b with _ | mb
  · simp [hm]
  · simpa [hm] using addProved_fields acc.2 (hyp.substitute mb)

/-- The premise loop preserves `StInv` whenever the recursive prover
does. -/
lemma provePremisesGo_inv (fuel : Nat)
    (bc : Fact → Bindings → ChainerState → List Bindings × ChainerState)
    (hbc : ∀ h b st, StInv fuel st (bc h b st).2) :
    ∀ (ps : List Fact) (b : Bindings) (st : ChainerState),
      StInv fuel st (provePremisesGo bc ps b st).2 := by
  intro ps
  induction ps with
  | nil => intro b st; exact StInv_refl _ _
  | cons p rest ih =>
      intro b st
      simp only [provePremisesGo]
      refine StInv_trans fuel (hbc p b st) ?_
      refine foldl_state_inv (StInv fuel) (StInv_refl fuel)
        (StInv_trans fuel) _ ?_ (bc p b st).1 ([], (bc p b st).2)
      intro acc rb
      exact ih rb acc.2

/-- The rule loop preserves `StInv` whenever the recursive prover does. -/
lemma tryRulesGo_inv (fuel : Nat)
    (bc : Fact → Bindings → ChainerState → List Bindings × ChainerState)
    (hbc : ∀ h b st, StInv fuel st (bc h b st).2)
    (rules : List Rule) (hyp : Fact) (b : Bindings)
    (init : List Bindings × ChainerState) :
    StInv fuel init.2 (tryRulesGo bc rules hyp b init).2 := by
  refine foldl_state_inv (StInv fuel) (StInv_refl fuel)
    (StInv_trans fuel) _ ?_ rules init
  intro acc rule
  have hst1 : StInv fuel acc.2
      ⟨acc.2.provedGoals, (renameRule acc.2.ruleCounter rule).2,
        acc.2.currentGoals, acc.2.peakStack⟩ := by
    refine ⟨rfl, ?_, le_max_left _ _⟩
    simp [renameRule]
  rcases hm : Fact.matchFact hyp (renameRule acc.2.ruleCounter rule).1.conclusion b
    with _ | mb
  · simpa [hm] using hst1
  · simp only [hm]
    refine StInv_trans fuel hst1 ?_
    have hpr := provePremisesGo_inv fuel bc hbc
      (renameRule acc.2.ruleCounter rule).1.premises mb
      ⟨acc.2.provedGoals, (renameRule acc.2.ruleCounter rule).2,
        acc.2.currentGoals, acc.2.peakStack⟩
    split
    · exact hpr
    · refine StInv_trans fuel hpr ?_
      have ha := addProved_fields
        (provePremisesGo bc (renameRule acc.2.ruleCounter rule).1.premises mb
          ⟨acc.2.provedGoals, (renameRule acc.2.ruleCounter rule).2,
            acc.2.currentGoals, acc.2.peakStack⟩).2
        (hyp.substitute mb)
      exact ⟨ha.1, le_of_eq ha.2.1.symm, ha.2.2.le.trans (le_max_left _ _)⟩

/-- The central invariant of `backchain_to_goal`: a call at depth budget
`fuel` restores the goal stack, never decreases the rule counter, and
bounds the peak goal-stack length by the entry peak and the entry stack
length plus the budget (each nesting level pushes one goal and runs its
subgoals at one less budget). -/
lemma backchainF_inv (kb : KnowledgeBase) :
    ∀ (fuel : Nat) (h : Fact) (b : Bindings) (st : ChainerState),
      StInv fuel st (backchainF kb fuel h b st).2 := by
  intro fuel
  induction fuel with
  | zero => intro h b st; exact StInv_refl 0 st
  | succ n ih =>
      intro h b st
      simp only [backchainF]
      by_cases hc : h.substitute b ∈ st.currentGoals
      · simp only [hc, if_true]
        exact StInv_refl _ _
      · by_cases hp : h.substitute b ∈ st.provedGoals
        · simp only [hc, hp, if_true, if_false]
          exact StInv_refl _ _
        · simp only [hc, hp, if_false]
          have hf := tryFacts_fields kb h b
            ⟨st.provedGoals, st.ruleCounter, h.substitute b :: st.currentGoals,
              max st.peakStack (st.currentGoals.length + 1)⟩
          have hr := tryRulesGo_inv n (backchainF kb n) ih kb.rules h b
            (tryFacts kb h b
              ⟨st.provedGoals, st.ruleCounter, h.substitute b :: st.currentGoals,
                max st.peakStack (st.currentGoals.length + 1)⟩)
          obtain ⟨hg1, hc1, hk1⟩ := hf
          obtain ⟨hg2, hc2, hk2⟩ := hr
          rw [hg1] at hg2
          rw [hk1, hg1] at hk2
          refine ⟨?_, ?_, ?_⟩
          · simp only [hg2, List.tail_cons]
          · simpa [hc1] using hc2
          · simp only []
            simp only [List.length_cons] at hk2
            omega


/-- Skipping in the premise loop: a premise that triggers the skip
condition is dropped and the remaining premises are processed unchanged,
wherever it sits in the list. -/
lemma processPremises_skip (pre post : List String) (p : String)
    (h : (containsSub p "\\=" || pyStartsWith p "_") = true) :
    processPremises (pre ++ p :: post) = processPremises (pre ++ post) := by
  induction pre with
  | nil => simp [processPremises, h]
  | cons q qs ih =>
      simp only [List.cons_append, processPremises, List.append_eq]
      rw [ih]

/-- `re.match(r'(\w+)\((.*?)\)', s)` fails on a string with no `(`. -/
lemma matchAtom_no_paren (t : String) (h : '(' ∉ t.data) :
    matchAtom t = none := by
  unfold matchAtom
  by_cases hp : (t.data.takeWhile isWordChar).isEmpty
  · simp [hp]
  · simp only [hp, if_false, Bool.false_eq_true]
    rcases hd : t.data.drop (t.data.takeWhile isWordChar).length with _ | ⟨c, rest⟩
    · simp
    · have hc : c ∈ t.data := by
        have : c ∈ t.data.drop (t.data.takeWhile isWordChar).length := by
          rw [hd]; exact List.mem_cons_self c rest
        exact List.drop_subset _ _ this
      have : c ≠ '(' := fun he => h (he ▸ hc)
      simp [this]

/-! ### Claims about the parser -/

/-- Claim C8 (confirmed): every body premise containing the disequality
operator `\=` is recognised and skipped: the premise is omitted from the
rule's body, no error is raised, and the remaining premises are kept in
order; the rule is still returned (illustrated on a full rule string). -/
theorem C8_disequality_premise_skipped :
    (∀ (pre post : List String) (p : String), containsSub p "\\=" = true →
      processPremises (pre ++ p :: post) = processPremises (pre ++ post)) ∧
    parsePrologRule "p(X) :- q(X), X \\= Y, r(X)." =
      some ⟨⟨"p", ["?X"]⟩, [⟨"q", ["?X"]⟩, ⟨"r", ["?X"]⟩]⟩ := by
  constructor
  · intro pre post p h
    exact processPremises_skip pre post p (by simp [h])
  · decide

/-- Witness for C8 at the premise list of
`p(X) :- q(X), X \= Y, r(X)`. -/
theorem C8_disequality_premise_skipped_witness :
    containsSub "X \\= Y" "\\=" = true ∧
    processPremises (["q(X)"] ++ "X \\= Y" :: ["r(X)"]) =
      processPremises (["q(X)"] ++ ["r(X)"]) :=
  ⟨by decide,
    C8_disequality_premise_skipped.1 ["q(X)"] ["r(X)"] "X \\= Y" (by decide)⟩

/-- Claim C10 (confirmed): a body premise whose text begins with an
underscore is silently omitted from the rule's body; the rule is still
returned with the remaining premises (illustrated on a full rule
string). -/
theorem C10_underscore_premise_skipped :
    (∀ (pre post : List String) (p : String), pyStartsWith p "_" = true →
      processPremises (pre ++ p :: post) = processPremises (pre ++ post)) ∧
    parsePrologRule "h(X) :- _sk(X), q(X)." =
      some ⟨⟨"h", ["?X"]⟩, [⟨"q", ["?X"]⟩]⟩ := by
  constructor
  · intro pre post p h
    exact processPremises_skip pre post p (by simp [h])
  · decide

/-- Witness for C10 at the premise list of `h(X) :- _sk(X), q(X)`. -/
theorem C10_underscore_premise_skipped_witness :
    pyStartsWith "_sk(X)" "_" = true ∧
    processPremises (["q(X)"] ++ "_sk(X)" :: []) =
      processPremises (["q(X)"] ++ []) :=
  ⟨by decide,
    C10_underscore_premise_skipped.1 ["q(X)"] [] "_sk(X)" (by decide)⟩

/-- Claim C7, counterexample: the bare identifier `happy.` does NOT parse
into a clause — `parse_prolog_fact` returns `None` (its regex requires a
parenthesised argument list), and `parse_prolog_line` therefore skips the
clause, contradicting the grammar alternative `atom := ... | ident`. -/
theorem C7_counterexample :
    parsePrologFact "happy." = none ∧ parsePrologLine "happy." = none := by
  constructor <;> decide

/-- Claim C7 as amended: the atom recogniser accepts only the
parenthesised form — any input without a `(` character fails to parse
(so a bare identifier is skipped), while the explicit zero-argument form
`happy().` parses to a zero-argument fact. -/
theorem C7_amended_bare_ident_rejected :
    (∀ s : String, '(' ∉ (rstripDot (pyStrip s)).data →
      parsePrologFact s = none) ∧
    parsePrologFact "happy()." = some ⟨"happy", []⟩ := by
  constructor
  · intro s h
    simp [parsePrologFact, matchAtom_no_paren _ h]
  · decide

/-- Witness for C7 (amended) at the input `happy.`. -/
theorem C7_amended_bare_ident_rejected_witness :
    '(' ∉ (rstripDot (pyStrip "happy.")).data ∧
    parsePrologFact "happy." = none :=
  ⟨by decide, C7_amended_bare_ident_rejected.1 "happy." (by decide)⟩

/-- Claim C4, counterexample: in `p(_, _)` both occurrences of the
anonymous variable `_` are parsed to the same identifier `?_`, so they
co-refer — refuting the claim that each occurrence gets a fresh
identity. -/
theorem C4_counterexample :
    parsePrologFact "p(_, _)." = some ⟨"p", ["?_", "?_"]⟩ ∧
    ¬ (∀ f : Fact, parsePrologFact "p(_, _)." = some f →
        f.args.getD 0 "" ≠ f.args.getD 1 "") := by
  refine ⟨by decide, fun hdist => ?_⟩
  have h1 : parsePrologFact "p(_, _)." = some ⟨"p", ["?_", "?_"]⟩ := by decide
  exact hdist ⟨"p", ["?_", "?_"]⟩ h1 rfl

/-- Claim C4 as amended: each occurrence of `_` in a parsed argument list
is replaced by the fixed variable name `?_` (so all `_` occurrences of a
clause denote one and the same variable): the parsed arguments are the
raw comma-split arguments mapped through `convertArg`, and every raw
argument equal to `_` yields `?_`. -/
theorem C4_amended_anonymous_is_fixed :
    ∀ (s : String) (f : Fact) (raw : List String),
      parsePrologFact s = some f → factRawArgs s = some raw →
      f.args = raw.map convertArg ∧
      ∀ (i : Nat) (h1 : i < raw.length), raw[i] = "_" →
        ∀ h2 : i < f.args.length, f.args[i] = "?_" := by
  intro s f raw hf hraw
  rcases hma : matchAtom (rstripDot (pyStrip s)) with _ | pa
  · simp [parsePrologFact, hma] at hf
  · by_cases he : pa.2.data.isEmpty
    · simp [parsePrologFact, factRawArgs, hma, he] at hf hraw
      subst hraw
      cases hf
      constructor
      · simp
      · intro i h1
        exact absurd h1 (by simp)
    · simp [parsePrologFact, factRawArgs, hma, he] at hf hraw
      have hargs : f.args = raw.map convertArg := by
        rw [← hf, ← hraw, List.map_map]
      refine ⟨hargs, fun i h1 hu h2 => ?_⟩
      simp only [hargs, List.getElem_map, hu]
      decide

/-- Witness for C4 (amended) at the input `p(_, _).`: position 0 of the
raw arguments is `_` and position 0 of the parsed arguments is `?_`. -/
theorem C4_amended_anonymous_is_fixed_witness :
    parsePrologFact "p(_, _)." = some ⟨"p", ["?_", "?_"]⟩ ∧
    (Fact.mk "p" ["?_", "?_"]).args.getD 0 "" = "?_" :=
  ⟨by decide,
    (C4_amended_anonymous_is_fixed "p(_, _)." ⟨"p", ["?_", "?_"]⟩ ["_", "_"]
      (by decide) (by decide)).2 0 (by decide) (by decide) (by decide)⟩

/-! ### Claims about the prover -/

/-- Claim C5 (confirmed): if, before expanding a goal, an atom
structurally equal to the goal after applying the current environment
already sits on the goal stack, `backchain_to_goal` fails that branch —
it returns no solutions and leaves the state untouched (so the goal is
not expanded: nothing is memoised and no rule is renamed).  At zero
remaining depth budget the branch also fails with no solutions. -/
theorem C5_cycle_on_stack_fails_branch :
    ∀ (kb : KnowledgeBase) (fuel : Nat) (h : Fact) (b : Bindings)
      (st : ChainerState), h.substitute b ∈ st.currentGoals →
      backchainF kb fuel h b st = ([], st) := by
  intro kb fuel h b st hmem
  cases fuel with
  | zero => rfl
  | succ n => simp [backchainF, hmem]

/-- Witness for C5: the goal `p(a)` whose substituted form already sits
on the goal stack fails with no solutions and an unchanged state. -/
theorem C5_cycle_on_stack_fails_branch_witness :
    (Fact.mk "p" ["a"]).substitute [] ∈ [Fact.mk "p" ["a"]] ∧
    backchainF kbPQ 50 ⟨"p", ["a"]⟩ [] ⟨[], 0, [⟨"p", ["a"]⟩], 0⟩ =
      ([], ⟨[], 0, [⟨"p", ["a"]⟩], 0⟩) :=
  ⟨by decide,
    C5_cycle_on_stack_fails_branch kbPQ 50 ⟨"p", ["a"]⟩ []
      ⟨[], 0, [⟨"p", ["a"]⟩], 0⟩ (by decide)⟩

/-- Claim C6 (confirmed): `prove` terminates for every knowledge base and
goal — in the embedding, `backchainF` is a total function, structurally
recursive on the depth budget `fuel = max_depth - trace_depth`, so every
call finishes within a bounded number of goal expansions.  Moreover:
the default depth limit is 50; a branch whose budget is exhausted
(Python: `trace_depth > max_depth`) fails with no solutions and no state
change; every call restores the goal stack it was given; and the peak
goal-stack length (the ghost `peakStack` field, updated at the only push
site) is bounded by the entry peak and the entry stack length plus the
budget — in particular a top-level `prove` at the default depth limit
never lets the goal stack exceed 50. -/
theorem C6_depth_limit_bounds_stack :
    initMaxDepth = 50 ∧
    (∀ (kb : KnowledgeBase) (h : Fact) (b : Bindings) (st : ChainerState),
      backchainF kb 0 h b st = ([], st)) ∧
    (∀ (kb : KnowledgeBase) (fuel : Nat) (h : Fact) (b : Bindings)
        (st : ChainerState),
      (backchainF kb fuel h b st).2.currentGoals = st.currentGoals ∧
      (backchainF kb fuel h b st).2.peakStack ≤
        max st.peakStack (st.currentGoals.length + fuel)) ∧
    (∀ (kb : KnowledgeBase) (g : Fact),
      (prove kb initMaxDepth g initState).2.peakStack ≤ initMaxDepth) := by
  refine ⟨rfl, fun kb h b st => rfl, ?_, ?_⟩
  · intro kb fuel h b st
    obtain ⟨h1, _, h3⟩ := backchainF_inv kb fuel h b st
    exact ⟨h1, h3⟩
  · intro kb g
    obtain ⟨_, _, h3⟩ := backchainF_inv kb initMaxDepth g [] ⟨[], 0, [], 0⟩
    simpa [prove, initState, initMaxDepth] using h3

/-- Claim C3, counterexample: the rule counter is NOT reset at entry to
`prove_with_bindings`.  On `kbPQ` with goal `p(?Z)`, the first call
renames with suffixes `_1`/`_2` and leaves the counter at 2; the second
call on the same instance continues with `_3`/`_4` and returns a
different binding list — had the counter been reset to its initial
value, the two calls would have been identical. -/
theorem C3_counterexample :
    (proveWithBindings kbPQ initMaxDepth ⟨"p", ["?Z"]⟩ initState).1 =
      [[("?Z", "?X_1"), ("?X_1", "a")]] ∧
    (proveWithBindings kbPQ initMaxDepth ⟨"p", ["?Z"]⟩ initState).2.ruleCounter = 2 ∧
    (proveWithBindings kbPQ initMaxDepth ⟨"p", ["?Z"]⟩
        (proveWithBindings kbPQ initMaxDepth ⟨"p", ["?Z"]⟩ initState).2).1 =
      [[("?Z", "?X_3"), ("?X_3", "a")]] ∧
    (proveWithBindings kbPQ initMaxDepth ⟨"p", ["?Z"]⟩ initState).1 ≠
      (proveWithBindings kbPQ initMaxDepth ⟨"p", ["?Z"]⟩
        (proveWithBindings kbPQ initMaxDepth ⟨"p", ["?Z"]⟩ initState).2).1 := by
  refine ⟨by decide, by decide, by decide, by decide⟩

/-- Claim C3 as amended: every call to `prove_with_bindings` (and
`prove`, which runs the same entry sequence) clears the proved set at
entry — its result is independent of the incoming proved set — and
leaves the goal stack as it found it, but the rule counter is NOT reset:
it only grows monotonically across calls. -/
theorem C3_amended_entry_state :
    ∀ (kb : KnowledgeBase) (md : Nat) (g : Fact) (st : ChainerState)
      (p : List Fact),
      proveWithBindings kb md g
          ⟨p, st.ruleCounter, st.currentGoals, st.peakStack⟩ =
        proveWithBindings kb md g st ∧
      st.ruleCounter ≤ (proveWithBindings kb md g st).2.ruleCounter ∧
      (proveWithBindings kb md g st).2.currentGoals = st.currentGoals := by
  intro kb md g st p
  refine ⟨rfl, ?_, ?_⟩
  · exact (backchainF_inv kb md g []
      ⟨[], st.ruleCounter, st.currentGoals, st.peakStack⟩).2.1
  · exact (backchainF_inv kb md g []
      ⟨[], st.ruleCounter, st.currentGoals, st.peakStack⟩).1

/-- Claim C2 (code bug), evaluation at the failing input: on `kbPQ` with
goal `p(?Z)`, after the rule `p(?X) :- q(?X)` succeeds the prover adds
`hypothesis.substitute(match_bindings) = p(?X_1)` to the proved set with
no groundness check — the proved set ends up containing a non-ground
atom, contradicting the gating the claim describes. -/
theorem C2_nonground_memo_inserted :
    (⟨"p", ["?X_1"]⟩ : Fact) ∈
      (proveWithBindings kbPQ initMaxDepth ⟨"p", ["?Z"]⟩ initState).2.provedGoals ∧
    Fact.isGround ⟨"p", ["?X_1"]⟩ = false := by
  refine ⟨by decide, by decide⟩

/-- Claim C9, counterexample: two successive `solve` calls on the same
instance, same KB (`kbPQ2`) and same goal `p(?Y_1)` disagree.  In the
first call the rule is renamed with suffix `_1`, so the renamed premise
variable `?Y_1` is captured by the query variable of the same name and
the proof fails (no solutions); the second call renames with suffix `_3`
and finds the solution `?Y_1 = a`. -/
theorem C9_counterexample :
    (solve kbPQ2 initMaxDepth ⟨"p", ["?Y_1"]⟩ initState).1 = [] ∧
    (solve kbPQ2 initMaxDepth ⟨"p", ["?Y_1"]⟩
        (solve kbPQ2 initMaxDepth ⟨"p", ["?Y_1"]⟩ initState).2).1 =
      [[("?Y_1", "a")]] ∧
    (solve kbPQ2 initMaxDepth ⟨"p", ["?Y_1"]⟩ initState).1 ≠
      (solve kbPQ2 initMaxDepth ⟨"p", ["?Y_1"]⟩
        (solve kbPQ2 initMaxDepth ⟨"p", ["?Y_1"]⟩ initState).2).1 := by
  refine ⟨by decide, by decide, by decide⟩

/-- One-step unfolding of `backchainF` at positive depth budget, kept as
an explicit lemma so that a single rewrite exposes the body without
recursively unfolding the nested call. -/
lemma backchainF_succ (kb : KnowledgeBase) (fuel : Nat) (hyp : Fact)
    (b : Bindings) (st : ChainerState) :
    backchainF kb (fuel + 1) hyp b st =
      (let bound := hyp.substitute b
       if bound ∈ st.currentGoals then ([], st)
       else if bound ∈ st.provedGoals then ([b], st)
       else
         let st1 : ChainerState :=
           ⟨st.provedGoals, st.ruleCounter, bound :: st.currentGoals,
             max st.peakStack (st.currentGoals.length + 1)⟩
         let fr := tryFacts kb hyp b st1
         let rr := tryRulesGo (backchainF kb fuel) kb.rules hyp b fr
         (rr.1, ⟨rr.2.provedGoals, rr.2.ruleCounter, rr.2.currentGoals.tail,
           rr.2.peakStack⟩)) := rfl

/-- A ground fact has no `?`-arguments to filter. -/
lemma filter_vars_nil (f : Fact) (hg : f.isGround = true) :
    f.args.filter (fun a => pyStartsWith a "?") = [] := by
  unfold Fact.isGround at hg
  rw [List.filter_eq_nil_iff]
  intro a ha
  have h := List.all_eq_true.mp hg a ha
  simp at h
  simp [h]

/-- A ground goal has no query variables. -/
lemma queryVars_ground (f : Fact) (hg : f.isGround = true) :
    queryVars f = [] := by
  unfold queryVars
  rw [filter_vars_nil f hg]
  rfl

/-- With no query variables, `extract_query_bindings` drops every
solution: each cleaned binding set is empty, and solutions with an empty
cleaned binding set are filtered out by `if clean_bindings:`. -/
lemma extractQueryBindings_ground (f : Fact) (hg : f.isGround = true)
    (bs : List Bindings) : extractQueryBindings f bs = [] := by
  unfold extractQueryBindings
  rw [queryVars_ground f hg]
  induction bs with
  | nil => rfl
  | cons b rest ih => simpa using ih

/-- Claim C9 as amended: repeated `solve` calls on the same instance can
disagree when a goal variable collides with a freshly renamed rule
variable (see the counterexample), because the rule counter is not reset
between calls; for a variable-free goal, however, every call returns the
same (empty) solution list regardless of the prover state, so repeated
calls always agree. -/
theorem C9_amended_ground_goal_deterministic :
    ∀ (kb : KnowledgeBase) (md : Nat) (g : Fact) (st st' : ChainerState),
      g.isGround = true →
      (solve kb md g st).1 = [] ∧
      (solve kb md g st).1 = (solve kb md g st').1 := by
  intro kb md g st st' hg
  have h1 : (solve kb md g st).1 = [] := by
    simp [solve, extractQueryBindings_ground g hg]
  have h2 : (solve kb md g st').1 = [] := by
    simp [solve, extractQueryBindings_ground g hg]
  exact ⟨h1, h1.trans h2.symm⟩

/-- Witness for C9 (amended) on the variable-free goal
`flightless(penguin)` and two different prover states. -/
theorem C9_amended_ground_goal_deterministic_witness :
    Fact.isGround ⟨"flightless", ["penguin"]⟩ = true ∧
    ((solve kbPQ2 initMaxDepth ⟨"flightless", ["penguin"]⟩ initState).1 = [] ∧
     (solve kbPQ2 initMaxDepth ⟨"flightless", ["penguin"]⟩ initState).1 =
       (solve kbPQ2 initMaxDepth ⟨"flightless", ["penguin"]⟩ ⟨[], 7, [], 0⟩).1) :=
  ⟨by decide,
    C9_amended_ground_goal_deterministic kbPQ2 initMaxDepth
      ⟨"flightless", ["penguin"]⟩ initState ⟨[], 7, [], 0⟩ (by decide)⟩

/-- Claim C1, counterexample: for the ground fact `happy` added to an
empty KB, `prove` is true but `solve` (that is, `prove_with_bindings`
followed by `extract_query_bindings`) returns NO solutions, not the
claimed single solution with no bindings: `extract_query_bindings`
filters out every solution whose cleaned binding set is empty. -/
theorem C1_counterexample :
    (prove (addFact emptyKB ⟨"happy", []⟩) initMaxDepth ⟨"happy", []⟩
        initState).1 = true ∧
    (solve (addFact emptyKB ⟨"happy", []⟩) initMaxDepth ⟨"happy", []⟩
        initState).1 = [] ∧
    ¬ ((solve (addFact emptyKB ⟨"happy", []⟩) initMaxDepth ⟨"happy", []⟩
        initState).1.length = 1) := by
  refine ⟨by decide, by decide, by decide⟩

/-- Claim C1 as amended: for any ground fact `f` added to an empty KB,
`prove(f)` is true, but `solve(f)` returns zero solutions — the unique
successful derivation carries no bindings, and solutions with no
concrete bindings are never emitted (they are dropped by the emptiness
filter), not even for variable-free goals. -/
theorem C1_amended_fact_round_trip :
    ∀ f : Fact, f.isGround = true →
      (prove (addFact emptyKB f) initMaxDepth f initState).1 = true ∧
      (solve (addFact emptyKB f) initMaxDepth f initState).1 = [] := by
  intro f hg
  have hkb : addFact emptyKB f = ⟨[f], []⟩ := by
    simp [addFact, emptyKB]
  have hbc : backchainF ⟨[f], []⟩ initMaxDepth f [] ⟨[], 0, [], 0⟩ =
      ([[]], ⟨[f], 0, [], 1⟩) := by
    have h50 : initMaxDepth = 49 + 1 := rfl
    rw [h50, backchainF_succ]
    simp [tryFacts, tryRulesGo, matchFact_self_ground f hg, addProved,
      substitute_nil]
  constructor
  · simp [prove, initState, hkb, hbc]
  · simp [solve, proveWithBindings, initState, hkb, hbc,
      extractQueryBindings_ground f hg]

/-- Witness for C1 (amended) at the ground fact `likes(a, b)`. -/
theorem C1_amended_fact_round_trip_witness :
    Fact.isGround ⟨"likes", ["a", "b"]⟩ = true ∧
    ((prove (addFact emptyKB ⟨"likes", ["a", "b"]⟩) initMaxDepth
        ⟨"likes", ["a", "b"]⟩ initState).1 = true ∧
     (solve (addFact emptyKB ⟨"likes", ["a", "b"]⟩) initMaxDepth
        ⟨"likes", ["a", "b"]⟩ initState).1 = []) :=
  ⟨by decide, C1_amended_fact_round_trip ⟨"likes", ["a", "b"]⟩ (by decide)⟩

end BC
